import Mathlib

/-!
Shallow embedding of the local-rcu crate (src/src/lib.rs): a single-producer,
multiple-consumer latest-value slot with epoch-based deferred reclamation.

Modelling conventions:
* Epoch counters (`Arc<atomic::AtomicUsize>`) are identified by a `Nat` id.
  An environment `env : Nat → Nat` gives the value a `load` of counter `id`
  returns at the instant an operation runs; the embedding serialises each
  writer operation against the readers, so a single `env` per operation call
  models the relaxed loads the source performs during that call.
* `Box<T>` values are plain `α` values; ownership transfer is value transfer.
* The slab `Shared.epochs` is the list of registered counter ids in
  iteration order; `Shared.prevs` is the retirement list.
* Reader-side state (`Reader::read`, `ReadGuard::drop`) is a small state
  machine on the reader's own counter, with `Option` modelling the
  `assert!` calls (`none` = assertion failure / panic).
-/

namespace LocalRcu

/-- One recorded witness: the `(usize, Arc<atomic::AtomicUsize>)` pair pushed
by `Writer::write_nosync` — the epoch value sampled at retirement time
(`prev`) and the identity of the sampled counter (`epochId`). -/
structure Witness where
  prev : Nat
  epochId : Nat
deriving DecidableEq, Repr

/-- One entry of the writer-private retirement list `Shared.prevs`:
a retired value together with its witness list, mirroring
`(Box<T>, Vec<(usize, Arc<atomic::AtomicUsize>)>)`. -/
structure Entry (α : Type) where
  val : α
  witnesses : List Witness
deriving DecidableEq, Repr

/-- Writer-visible state of the slot: the published value `active`, the
registered epoch-counter ids `epochs` (the slab, in iteration order), and the
retirement list `prevs`.  Mirrors `Shared<T>` as seen by the unique
`Writer<T>`. -/
structure WriterState (α : Type) where
  active : α
  epochs : List Nat
  prevs : List (Entry α)
deriving DecidableEq, Repr

/-- Filtering of one retirement entry's witness list performed inside
`Writer::try_sync`: `epochs.retain(|(prev, epoch)| epoch.load(Relaxed) == *prev)`
— a witness is kept exactly when the counter still holds the sampled value. -/
def retainWitnesses (env : Nat → Nat) (ws : List Witness) : List Witness :=
  ws.filter (fun w => env w.epochId == w.prev)

/-- Loop body of `Writer::try_sync` over the retirement list: each entry's
witness list is filtered with `retainWitnesses`; an entry whose filtered list
is empty is removed and its value pushed onto the output (in scan order),
otherwise it stays with the filtered list. -/
def trySyncList (env : Nat → Nat) : List (Entry α) → List (Entry α) × List α
  | [] => ([], [])
  | e :: rest =>
    let ws := retainWitnesses env e.witnesses
    let p := trySyncList env rest
    if ws.isEmpty then (p.1, e.val :: p.2)
    else (⟨e.val, ws⟩ :: p.1, p.2)

/-- Embedding of `Writer::try_sync`: one scan over `prevs`, returning the
updated state and the reclaimed values. -/
def try_sync (env : Nat → Nat) (s : WriterState α) : WriterState α × List α :=
  let p := trySyncList env s.prevs
  ({ s with prevs := p.1 }, p.2)

/-- Epoch scan inside `Writer::write_nosync`: for each registered counter,
load it (relaxed); if the low bit is set (`v & 1 != 0`), record the witness
`(v, counter)`. -/
def scanEpochs (env : Nat → Nat) : List Nat → List Witness
  | [] => []
  | id :: rest =>
    let v := env id
    if v &&& 1 != 0 then ⟨v, id⟩ :: scanEpochs env rest
    else scanEpochs env rest

/-- Embedding of `Writer::write_nosync`: load the old pointer, publish the new
value, scan the epoch registry for in-critical-section readers, and push
`(old, remaining_readers)` onto the retirement list. -/
def write_nosync (env : Nat → Nat) (s : WriterState α) (val : α) : WriterState α :=
  let prev := s.active
  { s with
    active := val
    prevs := s.prevs ++ [⟨prev, scanEpochs env s.epochs⟩] }

/-- Embedding of `Writer::write`: `try_sync`, then `write_nosync`, then
`try_sync` again, returning the concatenated reclaimed values. -/
def write (env : Nat → Nat) (s : WriterState α) (val : α) : WriterState α × List α :=
  let a := try_sync env s
  let s2 := write_nosync env a.1 val
  let b := try_sync env s2
  (b.1, a.2 ++ b.2)

/-- Embedding of `Writer::has_old_values`: `!self.prevs().is_empty()`. -/
def has_old_values (s : WriterState α) : Bool :=
  !s.prevs.isEmpty

/-- Embedding of `Writer::read`: a relaxed load of the published value. -/
def Writer.read (s : WriterState α) : α :=
  s.active

/-- Embedding of the `Writer::sync` loop with explicit fuel bounding the
number of loop iterations: `while !prevs.is_empty { let v = try_sync(); ... }`.
`none` means the fuel ran out while the loop was still spinning. -/
def syncFuel (env : Nat → Nat) : Nat → WriterState α → Option (WriterState α × List α)
  | 0, _ => none
  | fuel + 1, s =>
    if s.prevs.isEmpty then some (s, [])
    else
      let a := try_sync env s
      match syncFuel env fuel a.1 with
      | some (s2, r) => some (s2, a.2 ++ r)
      | none => none

/-- Values freed when `Shared<T>` is dropped: the explicit `Drop` impl frees
the `active` box, and the compiler-generated field drop of `prevs` then frees
every retired value still held in the retirement list. -/
def sharedDropFrees (s : WriterState α) : List α :=
  s.active :: s.prevs.map Entry.val

/-- Effect of dropping the `Writer` while `readers` readers are still alive.
`Writer<T>` has no `Drop` impl of its own: dropping it only releases its
`Arc<Shared<T>>` reference.  `Shared::drop` (and the field drop of `prevs`)
runs only when the last handle goes away, so with readers remaining nothing
is freed (`none`); with none remaining the shared state is torn down and
`sharedDropFrees` is released. -/
def dropWriter (readers : Nat) (s : WriterState α) : Option (List α) :=
  if readers = 0 then some (sharedDropFrees s) else none

/-- Read-side operations on one `Reader`: `enter` is `Reader::read()`,
`leave` is the `Drop` of the returned `ReadGuard`. -/
inductive ROp where
  | enter
  | leave
deriving DecidableEq, Repr

/-- State of one `Reader`: the current value of its epoch counter and whether
a `ReadGuard` borrowed from it is live. -/
structure ReaderSt where
  epoch : Nat
  guard : Bool
deriving DecidableEq, Repr

/-- One read-side step with the source's `assert!` checks modelled by
`Option`.  `Reader::read` asserts `v & 1 == 0` and stores `v | 1`;
`ReadGuard::drop` asserts `v & 1 != 0` and stores `v + 1`. -/
def stepReader (r : ReaderSt) : ROp → Option ReaderSt
  | .enter => if r.epoch &&& 1 == 0 then some ⟨r.epoch ||| 1, true⟩ else none
  | .leave => if r.epoch &&& 1 != 0 then some ⟨r.epoch + 1, false⟩ else none

/-- Run of a sequence of read-side operations; `none` as soon as an
assertion fails. -/
def runReader (r : ReaderSt) : List ROp → Option ReaderSt
  | [] => some r
  | op :: ops =>
    match stepReader r op with
    | some r1 => runReader r1 ops
    | none => none

/-- Structural well-typedness of a read-side operation sequence: a
`ReadGuard` exclusively borrows its `Reader`, so `enter` is only possible
with no guard live and `leave` only with a guard live.  The `Bool` argument
records whether a guard is currently live. -/
def wellTyped : Bool → List ROp → Bool
  | _, [] => true
  | false, .enter :: ops => wellTyped true ops
  | true, .leave :: ops => wellTyped false ops
  | _, _ => false

/-- Sequence of values taken by the reader's epoch counter along a run:
the initial value followed by the value after each successful step (the trace
stops early if an assertion fails). -/
def epochTrace (r : ReaderSt) : List ROp → List Nat
  | [] => [r.epoch]
  | op :: ops =>
    match stepReader r op with
    | some r1 => r.epoch :: epochTrace r1 ops
    | none => [r.epoch]

/-- Embedding of `Reader::new` composed with `slot`: a fresh reader starts
with its epoch counter at 0 and no live guard. -/
def Reader.new : ReaderSt :=
  ⟨0, false⟩

/-- Interleaved producer/consumer trace for the observation claims: `some v`
is a producer step `write_nosync(v)`, `none` is one consumer `Reader::read`,
whose observation is the acquire load of `active`.  Returns the list of
values the consumer observes, in order. -/
def runObs (env : Nat → Nat) : List (Option Nat) → WriterState Nat → List Nat
  | [], _ => []
  | some v :: tr, s => runObs env tr (write_nosync env s v)
  | none :: tr, s => s.active :: runObs env tr s

/-! Helper lemmas shared by several claim theorems. -/

/-- Helper: the low-bit test `v & 1` of the source is parity. -/
theorem and_one_eq_mod (v : Nat) : v &&& 1 = v % 2 :=
  Nat.and_one_is_mod v

/-- Helper: setting the low bit of an even number increments it by one. -/
theorem lor_one_of_even (v : Nat) (h : v % 2 = 0) : v ||| 1 = v + 1 := by
  obtain ⟨k, rfl⟩ : ∃ k, v = 2 * k := ⟨v / 2, by omega⟩
  have hb := Nat.lor_bit false k true 0
  simp [Nat.bit] at hb
  omega

/-- Helper: membership in the filtered witness list of `try_sync`. -/
theorem mem_retainWitnesses (env : Nat → Nat) (ws : List Witness) (w : Witness) :
    w ∈ retainWitnesses env ws ↔ w ∈ ws ∧ env w.epochId = w.prev := by
  simp [retainWitnesses, List.mem_filter]

/-- Helper: the `try_sync` scan described declaratively — the reclaimed values
are those of the entries whose filtered witness lists are empty (in order),
and the surviving entries are the others, carrying their filtered witness
lists. -/
theorem trySyncList_spec (env : Nat → Nat) :
    ∀ l : List (Entry α),
      (trySyncList env l).2
        = (l.filter fun e => (retainWitnesses env e.witnesses).isEmpty).map Entry.val
      ∧ (trySyncList env l).1
        = (l.map fun e => Entry.mk e.val (retainWitnesses env e.witnesses)).filter
            fun e => !e.witnesses.isEmpty
  | [] => by simp [trySyncList]
  | e :: l => by
    obtain ⟨h2, h1⟩ := trySyncList_spec env l
    by_cases h : (retainWitnesses env e.witnesses).isEmpty = true
    · simp [trySyncList, h, h2, h1, List.filter_cons]
    · simp [trySyncList, h, h2, h1, List.filter_cons]

/-- Helper: the epoch scan of `write_nosync` described declaratively. -/
theorem scanEpochs_spec (env : Nat → Nat) :
    ∀ ids : List Nat,
      scanEpochs env ids
        = (ids.filter fun i => env i &&& 1 != 0).map fun i => Witness.mk (env i) i
  | [] => by simp [scanEpochs]
  | i :: ids => by
    simp only [scanEpochs, scanEpochs_spec env ids, List.filter_cons]
    split <;> simp_all

/-! Claim theorems. -/

/-- C1: in every writer state, `try_sync` retains a witness iff the referenced
epoch counter still holds the value sampled at retirement; an entry is removed
from the retirement list with its value handed back iff its filtered witness
list is empty; entries whose witness lists stay non-empty remain, holding
exactly the surviving witnesses. -/
theorem try_sync_retention_spec (env : Nat → Nat) (s : WriterState α) :
    (∀ ws : List Witness, ∀ w : Witness,
        w ∈ retainWitnesses env ws ↔ w ∈ ws ∧ env w.epochId = w.prev)
  ∧ (try_sync env s).2
      = (s.prevs.filter fun e => (retainWitnesses env e.witnesses).isEmpty).map Entry.val
  ∧ (try_sync env s).1.prevs
      = (s.prevs.map fun e => Entry.mk e.val (retainWitnesses env e.witnesses)).filter
          fun e => !e.witnesses.isEmpty := by
  refine ⟨fun ws w => mem_retainWitnesses env ws w, ?_, ?_⟩
  · exact (trySyncList_spec env s.prevs).1
  · exact (trySyncList_spec env s.prevs).2

/-- C2: `write_nosync` publishes the new value, leaves the registry unchanged,
and appends exactly one retirement entry pairing the old value with one
witness per registered counter whose sampled value has the low bit set (and no
other witnesses); the entry is appended even when the witness list is empty,
in which case the old value is reclaimed by the next `try_sync`. -/
theorem write_nosync_retire_spec (env : Nat → Nat) (s : WriterState α) (v : α) :
    (write_nosync env s v).active = v
  ∧ (write_nosync env s v).epochs = s.epochs
  ∧ (write_nosync env s v).prevs = s.prevs ++ [⟨s.active, scanEpochs env s.epochs⟩]
  ∧ (scanEpochs env s.epochs
      = (s.epochs.filter fun i => env i &&& 1 != 0).map fun i => Witness.mk (env i) i)
  ∧ ∀ env2 : Nat → Nat, scanEpochs env s.epochs = [] →
      (try_sync env2 (write_nosync env s v)).2 = (try_sync env2 s).2 ++ [s.active] := by
  refine ⟨rfl, rfl, rfl, scanEpochs_spec env s.epochs, ?_⟩
  intro env2 h
  show (trySyncList env2 (s.prevs ++ [⟨s.active, scanEpochs env s.epochs⟩])).2
      = (trySyncList env2 s.prevs).2 ++ [s.active]
  rw [h, (trySyncList_spec env2 (s.prevs ++ [Entry.mk s.active []])).1,
    (trySyncList_spec env2 s.prevs).1]
  simp [List.filter_append, retainWitnesses]

/-- Witness for `write_nosync_retire_spec`: with the sole registered counter
even at retirement time, the old value 7 is reclaimed by the next
`try_sync`. -/
theorem write_nosync_retire_spec_witness :
    (try_sync (fun _ => 2) (write_nosync (fun _ => 0) (⟨7, [0], []⟩ : WriterState Nat) 3)).2
      = (try_sync (fun _ => 2) (⟨7, [0], []⟩ : WriterState Nat)).2 ++ [7] :=
  (write_nosync_retire_spec (fun _ => 0) ⟨7, [0], []⟩ 3).2.2.2.2 (fun _ => 2) (by decide)

/-- C4: `write` returns exactly the values of a `try_sync` pass performed
before publication followed by those of a `try_sync` pass performed after
`write_nosync`, in that order, and ends in the state the second pass
leaves. -/
theorem write_is_two_sync_passes (env : Nat → Nat) (s : WriterState α) (v : α) :
    (write env s v).2
      = (try_sync env s).2 ++ (try_sync env (write_nosync env (try_sync env s).1 v)).2
  ∧ (write env s v).1 = (try_sync env (write_nosync env (try_sync env s).1 v)).1 :=
  ⟨rfl, rfl⟩

/-- Helper: peeling one element off a range shifted by a constant. -/
theorem range_map_add_succ (a n : Nat) :
    (List.range (n + 1)).map (a + ·) = a :: (List.range n).map ((a + 1) + ·) := by
  rw [List.range_succ_eq_map, List.map_cons, List.map_map]
  simp only [Nat.add_zero]
  refine congrArg (a :: ·) ?_
  refine List.map_congr_left fun k _ => ?_
  simp only [Function.comp_apply]
  omega

/-- Helper: along any structurally well-typed read-side run whose starting
state satisfies the guard-parity invariant, no assertion fails, the invariant
is preserved, and the epoch counter takes consecutive values. -/
theorem runReader_spec :
    ∀ (ops : List ROp) (r : ReaderSt),
      wellTyped r.guard ops = true →
      r.epoch % 2 = (if r.guard then 1 else 0) →
      (runReader r ops).isSome = true
      ∧ (∀ r', runReader r ops = some r' → r'.epoch % 2 = (if r'.guard then 1 else 0))
      ∧ epochTrace r ops = (List.range (ops.length + 1)).map (r.epoch + ·)
  | [], r, _, hinv => by
    refine ⟨rfl, ?_, by
      rw [show List.range ([].length + 1) = [0] from by decide]
      simp [epochTrace]⟩
    intro r' hr'
    simp only [runReader, Option.some.injEq] at hr'
    subst hr'
    exact hinv
  | .enter :: ops, r, hwt, hinv => by
    cases hg : r.guard with
    | true =>
      rw [hg] at hwt
      simp [wellTyped] at hwt
    | false =>
      rw [hg] at hwt hinv
      have hwt' : wellTyped true ops = true := hwt
      have heven : r.epoch % 2 = 0 := by simpa using hinv
      have hstep : stepReader r .enter = some ⟨r.epoch ||| 1, true⟩ := by
        simp [stepReader, and_one_eq_mod, heven]
      have hsucc : r.epoch ||| 1 = r.epoch + 1 := lor_one_of_even r.epoch heven
      have hinv1 : (⟨r.epoch ||| 1, true⟩ : ReaderSt).epoch % 2
          = (if (⟨r.epoch ||| 1, true⟩ : ReaderSt).guard then 1 else 0) := by
        show (r.epoch ||| 1) % 2 = 1
        rw [hsucc]
        omega
      obtain ⟨ih1, ih2, ih3⟩ := runReader_spec ops ⟨r.epoch ||| 1, true⟩ hwt' hinv1
      refine ⟨?_, ?_, ?_⟩
      · simpa only [runReader, hstep] using ih1
      · intro r' hr'
        simp only [runReader, hstep] at hr'
        exact ih2 r' hr'
      · have etr : epochTrace r (.enter :: ops)
            = r.epoch :: epochTrace ⟨r.epoch ||| 1, true⟩ ops := by
          simp only [epochTrace, hstep]
        rw [etr, ih3, hsucc, List.length_cons]
        exact (range_map_add_succ r.epoch (ops.length + 1)).symm
  | .leave :: ops, r, hwt, hinv => by
    cases hg : r.guard with
    | false =>
      rw [hg] at hwt
      simp [wellTyped] at hwt
    | true =>
      rw [hg] at hwt hinv
      have hwt' : wellTyped false ops = true := hwt
      have hodd : r.epoch % 2 = 1 := by simpa using hinv
      have hstep : stepReader r .leave = some ⟨r.epoch + 1, false⟩ := by
        simp [stepReader, and_one_eq_mod, hodd]
      have hinv1 : (⟨r.epoch + 1, false⟩ : ReaderSt).epoch % 2
          = (if (⟨r.epoch + 1, false⟩ : ReaderSt).guard then 1 else 0) := by
        show (r.epoch + 1) % 2 = 0
        omega
      obtain ⟨ih1, ih2, ih3⟩ := runReader_spec ops ⟨r.epoch + 1, false⟩ hwt' hinv1
      refine ⟨?_, ?_, ?_⟩
      · simpa only [runReader, hstep] using ih1
      · intro r' hr'
        simp only [runReader, hstep] at hr'
        exact ih2 r' hr'
      · have etr : epochTrace r (.leave :: ops)
            = r.epoch :: epochTrace ⟨r.epoch + 1, false⟩ ops := by
          simp only [epochTrace, hstep]
        rw [etr, ih3, List.length_cons]
        exact (range_map_add_succ r.epoch (ops.length + 1)).symm

/-- C3: a fresh Reader's epoch counter starts at 0; along any structurally
well-typed sequence of `Reader::read` / guard-drop operations the counter
takes exactly the consecutive values 0, 1, 2, …, strictly monotone (so each
balanced enter/exit pair advances it by exactly 2), and the counter is even
exactly when no `ReadGuard` is live. -/
theorem reader_epoch_sequence (ops : List ROp) (h : wellTyped false ops = true) :
    Reader.new.epoch = 0
  ∧ epochTrace Reader.new ops = List.range (ops.length + 1)
  ∧ List.Chain' (· < ·) (epochTrace Reader.new ops)
  ∧ ∀ r', runReader Reader.new ops = some r' → (r'.epoch % 2 = 0 ↔ r'.guard = false) := by
  obtain ⟨h1, h2, h3⟩ := runReader_spec ops Reader.new h rfl
  have htr : epochTrace Reader.new ops = List.range (ops.length + 1) := by
    rw [h3]
    simp [Reader.new]
  refine ⟨rfl, htr, ?_, ?_⟩
  · rw [htr]
    exact (List.pairwise_lt_range _).chain'
  · intro r' hr'
    have hp := h2 r' hr'
    cases hgr : r'.guard with
    | false =>
      rw [hgr] at hp
      simp at hp
      exact iff_of_true hp rfl
    | true =>
      rw [hgr] at hp
      simp at hp
      refine iff_of_false (by omega) (by simp)

/-- Witness for `reader_epoch_sequence`: one balanced read gives the counter
trace 0, 1, 2. -/
theorem reader_epoch_sequence_witness :
    epochTrace Reader.new [ROp.enter, ROp.leave] = List.range 3 :=
  (reader_epoch_sequence [ROp.enter, ROp.leave] (by decide)).2.1

/-- C9: along every structurally well-typed sequence of read-side operations
(nested reads on one Reader are impossible because the guard exclusively
borrows it), the `assert!(v & 1 == 0)` in `Reader::read` and the
`assert!(v & 1 != 0)` in the guard's drop never fail. -/
theorem read_assertions_never_fail (ops : List ROp) (h : wellTyped false ops = true) :
    (runReader Reader.new ops).isSome = true :=
  (runReader_spec ops Reader.new h rfl).1

/-- Witness for `read_assertions_never_fail`: two reads in sequence run with
no assertion failure. -/
theorem read_assertions_never_fail_witness :
    (runReader Reader.new [ROp.enter, ROp.leave, ROp.enter]).isSome = true :=
  read_assertions_never_fail [ROp.enter, ROp.leave, ROp.enter] (by decide)

/-- Helper: when every recorded witness sampled an odd epoch value and every
counter now reads even, no witness survives the `try_sync` filter. -/
theorem retainWitnesses_eq_nil (env : Nat → Nat) (ws : List Witness)
    (hodd : ∀ w ∈ ws, w.prev % 2 = 1) (hquiet : ∀ n, env n % 2 = 0) :
    retainWitnesses env ws = [] := by
  rw [retainWitnesses, List.filter_eq_nil_iff]
  intro w hw
  have h1 := hodd w hw
  have h2 := hquiet w.epochId
  simp only [beq_iff_eq]
  omega

/-- Helper: if one `try_sync` pass empties the retirement list, the `sync`
loop returns after that pass, with its result. -/
theorem syncFuel_of_one_pass (env : Nat → Nat) (s : WriterState α) (k : Nat)
    (h : (try_sync env s).1.prevs = []) :
    syncFuel env (k + 2) s = some ((try_sync env s).1, (try_sync env s).2) := by
  by_cases hemp : s.prevs.isEmpty = true
  · have hprevs : s.prevs = [] := List.isEmpty_iff.mp hemp
    have h1 : try_sync env s = ({ s with prevs := [] }, []) := by
      show ({ s with prevs := (trySyncList env s.prevs).1 }, (trySyncList env s.prevs).2) = _
      rw [hprevs]
      rfl
    rw [h1, syncFuel, if_pos hemp]
    cases s
    simp only at hprevs
    subst hprevs
    rfl
  · rw [syncFuel, if_neg hemp]
    show (match syncFuel env (k + 1) (try_sync env s).1 with
      | some (s2, r) => some (s2, (try_sync env s).2 ++ r)
      | none => none) = some ((try_sync env s).1, (try_sync env s).2)
    rw [syncFuel, if_pos (by simp [h])]
    simp

/-- C5: in a quiescent system — every epoch counter reads even (no live
guards) and no concurrent writes — `sync` terminates (any fuel of at least
two loop iterations suffices), returns every value held in the retirement
list, and leaves `has_old_values` false. -/
theorem sync_quiescent_complete (env : Nat → Nat) (s : WriterState α) (fuel : Nat)
    (hodd : ∀ e ∈ s.prevs, ∀ w ∈ e.witnesses, w.prev % 2 = 1)
    (hquiet : ∀ n, env n % 2 = 0) (hfuel : 2 ≤ fuel) :
    syncFuel env fuel s = some ({ s with prevs := [] }, s.prevs.map Entry.val)
  ∧ has_old_values ({ s with prevs := [] } : WriterState α) = false := by
  have hnil : (trySyncList env s.prevs).1 = [] := by
    rw [(trySyncList_spec env s.prevs).2, List.filter_eq_nil_iff]
    intro e he
    rw [List.mem_map] at he
    obtain ⟨e0, he0, rfl⟩ := he
    rw [show (Entry.mk e0.val (retainWitnesses env e0.witnesses)).witnesses
        = retainWitnesses env e0.witnesses from rfl]
    rw [retainWitnesses_eq_nil env e0.witnesses (hodd e0 he0) hquiet]
    simp
  have hvals : (trySyncList env s.prevs).2 = s.prevs.map Entry.val := by
    rw [(trySyncList_spec env s.prevs).1]
    congr 1
    rw [List.filter_eq_self]
    intro e he
    rw [retainWitnesses_eq_nil env e.witnesses (hodd e he) hquiet]
    rfl
  obtain ⟨k, rfl⟩ : ∃ k, fuel = k + 2 := ⟨fuel - 2, by omega⟩
  have hrun := syncFuel_of_one_pass env s k hnil
  constructor
  · rw [hrun]
    have e1 : (try_sync env s).1 = { s with prevs := ([] : List (Entry α)) } := by
      show { s with prevs := (trySyncList env s.prevs).1 } = _
      rw [hnil]
    have e2 : (try_sync env s).2 = s.prevs.map Entry.val := hvals
    rw [e1, e2]
  · rfl

/-- Witness for `sync_quiescent_complete`: one retired value whose witness
sampled epoch 1 while the counter now reads 2 is reclaimed by `sync` with
fuel 2. -/
theorem sync_quiescent_complete_witness :
    syncFuel (fun _ => 2) 2 (⟨9, [0], [⟨5, [⟨1, 0⟩]⟩]⟩ : WriterState Nat)
      = some (⟨9, [0], []⟩, [5]) := by
  have h := sync_quiescent_complete (fun _ => 2) (⟨9, [0], [⟨5, [⟨1, 0⟩]⟩]⟩ : WriterState Nat) 2
    (by decide) (fun _ => Nat.mod_self 2) (by decide)
  exact h.1

/-- Counterexample to C6 as stated: the producer writes 1 then 2 via `write`,
the single consumer reads once and drops its guard (its epoch goes 0 → 1 → 2)
before the second write; the second `write` call itself reclaims the value 1,
so the `try_sync` that follows the second write returns the empty list, not
`[1]`. -/
theorem scenario_reclaim_counterexample :
    (try_sync (fun _ => 2)
        (write (fun _ => 2) (write (fun _ => 0) (⟨0, [0], []⟩ : WriterState Nat) 1).1 2).1).2
      ≠ [1]
  ∧ (try_sync (fun _ => 2)
        (write (fun _ => 2) (write (fun _ => 0) (⟨0, [0], []⟩ : WriterState Nat) 1).1 2).1).2
      = [] := by decide

/-- C6 amended: in the serialized scenario the consumer's balanced read moves
its epoch counter 0 → 1 → 2; the producer's first `write` returns the initial
value, the second `write` itself returns exactly the value 1, and the
`try_sync` performed after the second write returns nothing. -/
theorem scenario_reclaim_amended :
    runReader Reader.new [ROp.enter, ROp.leave] = some ⟨2, false⟩
  ∧ (write (fun _ => 0) (⟨0, [0], []⟩ : WriterState Nat) 1).2 = [0]
  ∧ (write (fun _ => 2) (write (fun _ => 0) (⟨0, [0], []⟩ : WriterState Nat) 1).1 2).2 = [1]
  ∧ (try_sync (fun _ => 2)
      (write (fun _ => 2) (write (fun _ => 0) (⟨0, [0], []⟩ : WriterState Nat) 1).1 2).1).2
      = [] := by decide

/-- Counterexample to C7 as stated: with one Reader still alive and a retired
value present, dropping the Writer frees nothing and leaves the retirement
list in place — `Writer<T>` has no `Drop` impl and never calls `sync` on
drop; the source keeps `prevs` inside `Shared` precisely so that Writer drop
does not spin. -/
theorem writer_drop_counterexample :
    dropWriter 1 (⟨0, [0], [⟨1, [⟨1, 0⟩]⟩]⟩ : WriterState Nat) = none
  ∧ (⟨0, [0], [⟨1, [⟨1, 0⟩]⟩]⟩ : WriterState Nat).prevs ≠ [] := by decide

/-- C7 amended: dropping the Writer does not drain the retirement list and
never spins; while any Reader remains alive nothing is freed, and when the
last handle goes the `Shared` teardown frees the final published value and
every value still held in the retirement list. -/
theorem writer_drop_frees (readers : Nat) (s : WriterState α) :
    dropWriter (readers + 1) s = none
  ∧ dropWriter 0 s = some (s.active :: s.prevs.map Entry.val) := by
  constructor
  · simp [dropWriter]
  · simp [dropWriter, sharedDropFrees]

/-- Helper: prepending a smaller head to a non-decreasing chain. -/
theorem chain_le_of_le_head (a b : Nat) (l : List Nat) (hab : a ≤ b)
    (h : List.Chain' (· ≤ ·) (b :: l)) : List.Chain' (· ≤ ·) (a :: l) := by
  cases l with
  | nil => simp
  | cons c l =>
    rw [List.chain'_cons] at h ⊢
    exact ⟨le_trans hab h.1, h.2⟩

/-- Helper: along any interleaving, the observation list headed by the
currently published value is non-decreasing when the pending writes strictly
increase from it. -/
theorem runObs_chain (env : Nat → Nat) :
    ∀ (tr : List (Option Nat)) (s : WriterState Nat),
      List.Chain' (· < ·) (s.active :: tr.filterMap id) →
      List.Chain' (· ≤ ·) (s.active :: runObs env tr s)
  | [], s, _ => by simp [runObs]
  | none :: tr, s, h => by
    rw [show runObs env (none :: tr) s = s.active :: runObs env tr s from rfl,
      List.chain'_cons]
    refine ⟨le_refl _, ?_⟩
    apply runObs_chain env tr s
    simpa using h
  | some v :: tr, s, h => by
    rw [show runObs env (some v :: tr) s = runObs env tr (write_nosync env s v) from rfl]
    have hh : s.active < v ∧ List.Chain' (· < ·) (v :: tr.filterMap id) := by
      have h2 : List.Chain' (· < ·) (s.active :: v :: tr.filterMap id) := by
        simpa using h
      rw [List.chain'_cons] at h2
      exact h2
    have ih := runObs_chain env tr (write_nosync env s v) (by
      rw [show (write_nosync env s v).active = v from rfl]
      exact hh.2)
    have ih2 : List.Chain' (· ≤ ·) (v :: runObs env tr (write_nosync env s v)) := by
      rwa [show (write_nosync env s v).active = v from rfl] at ih
    exact chain_le_of_le_head _ _ _ (le_of_lt hh.1) ih2

/-- C8: for a producer publishing a strictly increasing sequence of values
into the slot and a reader performing repeated reads, interleaved with the
writes in any order, the sequence of values the reader observes is
non-decreasing. -/
theorem observations_monotone (env : Nat → Nat) (tr : List (Option Nat))
    (s : WriterState Nat)
    (h : List.Chain' (· < ·) (s.active :: tr.filterMap id)) :
    List.Chain' (· ≤ ·) (runObs env tr s) :=
  (runObs_chain env tr s h).tail

/-- Witness for `observations_monotone`: reads interleaved with the writes
1, 2 starting from initial value 0. -/
theorem observations_monotone_witness :
    List.Chain' (· ≤ ·)
      (runObs (fun _ => 0) [none, some 1, none, some 2, none]
        (⟨0, [0], []⟩ : WriterState Nat)) :=
  observations_monotone (fun _ => 0) [none, some 1, none, some 2, none] ⟨0, [0], []⟩
    (by simp [List.chain'_cons])

/-- Helper: a successful `syncFuel` run changes neither the published value
nor the epoch registry. -/
theorem syncFuel_frame (env : Nat → Nat) :
    ∀ (fuel : Nat) (s s' : WriterState α) (r : List α),
      syncFuel env fuel s = some (s', r) → s'.active = s.active ∧ s'.epochs = s.epochs
  | 0, s, s', r, h => by simp [syncFuel] at h
  | fuel + 1, s, s', r, h => by
    rw [syncFuel] at h
    by_cases hemp : s.prevs.isEmpty = true
    · rw [if_pos hemp] at h
      simp only [Option.some.injEq, Prod.mk.injEq] at h
      obtain ⟨h1, -⟩ := h
      subst h1
      exact ⟨rfl, rfl⟩
    · rw [if_neg hemp] at h
      replace h : (match syncFuel env fuel (try_sync env s).1 with
          | some (s2, r2) => some (s2, (try_sync env s).2 ++ r2)
          | none => none) = some (s', r) := h
      cases hrec : syncFuel env fuel (try_sync env s).1 with
      | none =>
        rw [hrec] at h
        simp at h
      | some p =>
        obtain ⟨p1, p2⟩ := p
        rw [hrec] at h
        simp only [Option.some.injEq, Prod.mk.injEq] at h
        obtain ⟨h1, -⟩ := h
        subst h1
        have ih := syncFuel_frame env fuel (try_sync env s).1 p1 p2 hrec
        exact ⟨ih.1, ih.2⟩

/-- C10: the collectors modify only the writer-private retirement list —
`try_sync` and a terminating `sync` leave the published value (as observed by
`Writer::read`) and the epoch registry unchanged, and `has_old_values` reads
nothing but the retirement list. -/
theorem collectors_frame (env : Nat → Nat) (s : WriterState α) (fuel : Nat) :
    (try_sync env s).1.active = s.active
  ∧ (try_sync env s).1.epochs = s.epochs
  ∧ Writer.read (try_sync env s).1 = Writer.read s
  ∧ (∀ s' r, syncFuel env fuel s = some (s', r) →
      s'.active = s.active ∧ s'.epochs = s.epochs ∧ Writer.read s' = Writer.read s)
  ∧ ∀ t : WriterState α, s.prevs = t.prevs → has_old_values s = has_old_values t := by
  refine ⟨rfl, rfl, rfl, ?_, ?_⟩
  · intro s' r h
    obtain ⟨h1, h2⟩ := syncFuel_frame env fuel s s' r h
    exact ⟨h1, h2, h1⟩
  · intro t ht
    rw [has_old_values, has_old_values, ht]

/-- Witness for `collectors_frame`: a concrete state with one quiescent
retired value; neither `try_sync` nor a terminating `sync` changes the
published value, and `has_old_values` agrees across states sharing the
retirement list. -/
theorem collectors_frame_witness :
    (try_sync (fun _ => 0) (⟨3, [7], [⟨5, []⟩]⟩ : WriterState Nat)).1.active = 3
  ∧ (⟨3, [7], ([] : List (Entry Nat))⟩ : WriterState Nat).active
      = (⟨3, [7], [⟨5, []⟩]⟩ : WriterState Nat).active
  ∧ has_old_values (⟨3, [7], [⟨5, []⟩]⟩ : WriterState Nat)
      = has_old_values (⟨99, [7], [⟨5, []⟩]⟩ : WriterState Nat) := by
  have h := collectors_frame (fun _ => 0) (⟨3, [7], [⟨5, []⟩]⟩ : WriterState Nat) 2
  refine ⟨h.1, ?_, ?_⟩
  · exact (h.2.2.2.1 ⟨3, [7], []⟩ [5] (by decide)).1
  · exact h.2.2.2.2 ⟨99, [7], [⟨5, []⟩]⟩ (by decide)

end LocalRcu
